import Mathlib

set_option maxRecDepth 100000

/-!
Shallow embedding, in Lean 4, of the read-back reconciliation subsystem of
the `sugar` repository (files `src/read_cache/process.rs` and
`src/config/data.rs`), together with proofs about the behaviour of
`process_read_cache`, its comparator-based `reorder`, the SHA-256 content
hashers `encode_text` / `encode_url`, and `HiddenSettings::to_candy_format`.

Machine integers are modelled as `Nat` with explicit reduction modulo
`2^32` (resp. `2^8`) where the Rust code works on `u32` / `u8` values.
-/

namespace Sugar

/-! ## SHA-256 (the `ring::digest::SHA256` primitive used by `encode_text`
and `encode_url`).  A `Context` that is updated with successive byte chunks
and then finalised computes the SHA-256 digest of the concatenation of the
chunks; we model exactly that digest function over a byte list. -/

namespace SHA256

/-- The modulus for 32-bit words, 2^32. -/
def M : Nat := 4294967296

/-- Right rotation of a 32-bit word. -/
def rotr (n x : Nat) : Nat := ((x >>> n) ||| (x <<< (32 - n))) % M

/-- SHA-256 `Ch` function; complement taken in 32 bits. -/
def ch (e f g : Nat) : Nat := (e &&& f) ^^^ ((e ^^^ 4294967295) &&& g)

/-- SHA-256 `Maj` function. -/
def maj (a b c : Nat) : Nat := (a &&& b) ^^^ (a &&& c) ^^^ (b &&& c)

def bigSigma0 (x : Nat) : Nat := rotr 2 x ^^^ rotr 13 x ^^^ rotr 22 x

def bigSigma1 (x : Nat) : Nat := rotr 6 x ^^^ rotr 11 x ^^^ rotr 25 x

def smallSigma0 (x : Nat) : Nat := rotr 7 x ^^^ rotr 18 x ^^^ (x >>> 3)

def smallSigma1 (x : Nat) : Nat := rotr 17 x ^^^ rotr 19 x ^^^ (x >>> 10)

/-- The 64 SHA-256 round constants. -/
def K : Array Nat := #[
  1116352408, 1899447441, 3049323471, 3921009573,
  961987163, 1508970993, 2453635748, 2870763221,
  3624381080, 310598401, 607225278, 1426881987,
  1925078388, 2162078206, 2614888103, 3248222580,
  3835390401, 4022224774, 264347078, 604807628,
  770255983, 1249150122, 1555081692, 1996064986,
  2554220882, 2821834349, 2952996808, 3210313671,
  3336571891, 3584528711, 113926993, 338241895,
  666307205, 773529912, 1294757372, 1396182291,
  1695183700, 1986661051, 2177026350, 2456956037,
  2730485921, 2820302411, 3259730800, 3345764771,
  3516065817, 3600352804, 4094571909, 275423344,
  430227734, 506948616, 659060556, 883997877,
  958139571, 1322822218, 1537002063, 1747873779,
  1955562222, 2024104815, 2227730452, 2361852424,
  2428436474, 2756734187, 3204031479, 3329325298]

/-- Working registers of the compression function. -/
structure Regs where
  a : Nat
  b : Nat
  c : Nat
  d : Nat
  e : Nat
  f : Nat
  g : Nat
  h : Nat

/-- The SHA-256 initial hash value. -/
def H0 : Regs :=
  ⟨1779033703, 3144134277, 1013904242, 2773480762,
   1359893119, 2600822924, 528734635, 1541459225⟩

/-- One compression round. -/
def round (k w : Nat) (r : Regs) : Regs :=
  let t1 := (r.h + bigSigma1 r.e + ch r.e r.f r.g + k + w) % M
  let t2 := (bigSigma0 r.a + maj r.a r.b r.c) % M
  { a := (t1 + t2) % M, b := r.a, c := r.b, d := r.c,
    e := (r.d + t1) % M, f := r.e, g := r.f, h := r.g }

/-- Message-schedule expansion of the 16 block words to 64 words. -/
def schedule (ws : List Nat) : Array Nat :=
  (List.range 48).foldl
    (fun w i =>
      w.push ((smallSigma1 w[i + 14]! + w[i + 9]! + smallSigma0 w[i + 1]! + w[i]!) % M))
    ws.toArray

/-- Big-endian bytes (`k` of them) of a natural number. -/
def beBytes : Nat → Nat → List Nat
  | 0, _ => []
  | k + 1, n => beBytes k (n >>> 8) ++ [n % 256]

/-- Group four big-endian bytes into one 32-bit word. -/
def toWords : List Nat → List Nat
  | a :: b :: c :: d :: rest => (((a * 256 + b) * 256 + c) * 256 + d) :: toWords rest
  | _ => []

/-- Compress one 64-byte block into the running hash state. -/
def compressBlock (h : Regs) (block : List Nat) : Regs :=
  let ws := schedule (toWords block)
  let r := (List.range 64).foldl (fun r t => round (K[t]!) (ws[t]!) r) h
  { a := (h.a + r.a) % M, b := (h.b + r.b) % M, c := (h.c + r.c) % M,
    d := (h.d + r.d) % M, e := (h.e + r.e) % M, f := (h.f + r.f) % M,
    g := (h.g + r.g) % M, h := (h.h + r.h) % M }

/-- SHA-256 padding: append `0x80`, zero bytes up to 56 mod 64, and the
64-bit big-endian bit length. -/
def pad (m : List Nat) : List Nat :=
  let L := m.length
  let zeros := (64 + 56 - ((L + 1) % 64)) % 64
  m ++ [128] ++ List.replicate zeros 0 ++ beBytes 8 (L * 8)

/-- Split into 64-byte blocks (fuel-driven so that it reduces in the
kernel; `l.length` steps always suffice since each step consumes 64 > 0
bytes of a non-empty list). -/
def toBlocksFuel : Nat → List Nat → List (List Nat)
  | 0, _ => []
  | _, [] => []
  | fuel + 1, l => l.take 64 :: toBlocksFuel fuel (l.drop 64)

def toBlocks (l : List Nat) : List (List Nat) := toBlocksFuel l.length l

/-- The four big-endian bytes of one 32-bit word. -/
def wordBytes (x : Nat) : List Nat :=
  [(x >>> 24) % 256, (x >>> 16) % 256, (x >>> 8) % 256, x % 256]

/-- The 32 digest bytes of a final state. -/
def regsBytes (r : Regs) : List Nat :=
  wordBytes r.a ++ wordBytes r.b ++ wordBytes r.c ++ wordBytes r.d ++
  wordBytes r.e ++ wordBytes r.f ++ wordBytes r.g ++ wordBytes r.h

/-- SHA-256 of a byte list: 32 digest bytes. -/
def hash (m : List Nat) : List Nat :=
  regsBytes ((toBlocks (pad m)).foldl compressBlock H0)

end SHA256

/-! ## Lowercase hex rendering (`data_encoding::HEXLOWER.encode`). -/

/-- The lowercase hex digit for `n < 16`. -/
def hexDigit (n : Nat) : Char :=
  if n < 10 then Char.ofNat (48 + n) else Char.ofNat (87 + n)

/-- The two lowercase hex digits of one byte. -/
def hexByte (b : Nat) : List Char := [hexDigit (b / 16), hexDigit (b % 16)]

/-- The `HEXLOWER.encode` rendering of a byte list. -/
def hexEncode (bs : List Nat) : String := String.mk (bs.flatMap hexByte)

/-! ## UTF-8 bytes of a string (Rust `str::as_bytes`). -/

/-- The UTF-8 encoding of one scalar value. -/
def utf8Bytes (c : Char) : List Nat :=
  let n := c.toNat
  if n < 128 then [n]
  else if n < 2048 then [192 ||| (n >>> 6), 128 ||| (n &&& 63)]
  else if n < 65536 then
    [224 ||| (n >>> 12), 128 ||| ((n >>> 6) &&& 63), 128 ||| (n &&& 63)]
  else
    [240 ||| (n >>> 18), 128 ||| ((n >>> 12) &&& 63),
     128 ||| ((n >>> 6) &&& 63), 128 ||| (n &&& 63)]

/-- The UTF-8 bytes of a string. -/
def strBytes (s : String) : List Nat := s.data.flatMap utf8Bytes

/-! ## `encode_text` (src/read_cache/process.rs, lines 115–122).
The Rust function returns `Result` but its body never errs, so it is
modelled as the plain digest of the string's UTF-8 bytes. -/

def encode_text (text : String) : String := hexEncode (SHA256.hash (strBytes text))

/-! ## Rust `str::parse::<i32>` on cache keys.
Accepts an optional `+`/`-` sign followed by at least one ASCII digit and
nothing else, and requires the value to fit in a signed 32-bit integer. -/

/-- The value of an ASCII digit, if the character is one. -/
def digitVal (c : Char) : Option Nat :=
  if 48 ≤ c.toNat ∧ c.toNat ≤ 57 then some (c.toNat - 48) else none

/-- Accumulate a decimal value over a digit list; fails on a non-digit. -/
def digitsValAux : List Char → Nat → Option Nat
  | [], acc => some acc
  | c :: rest, acc =>
    match digitVal c with
    | none => none
    | some d => digitsValAux rest (acc * 10 + d)

/-- Digits-with-sign part of `i32` parsing: at least one character, all
digits, and the value within the signed 32-bit range. -/
def parseDigits (neg : Bool) (ds : List Char) : Option Int :=
  match ds with
  | [] => none
  | _ =>
    match digitsValAux ds 0 with
    | none => none
    | some n =>
      if neg then
        if n ≤ 2147483648 then some (-(n : Int)) else none
      else
        if n ≤ 2147483647 then some (n : Int) else none

/-- Rust `str::parse::<i32>`: `none` models `Err`.  An optional leading `+` or
`-` sign, then at least one ASCII digit and nothing else, with the value
required to fit in `i32`. -/
def parse_i32 (s : String) : Option Int :=
  match s.data with
  | [] => none
  | c :: cs =>
    if c = '+' then parseDigits false cs
    else if c = '-' then parseDigits true cs
    else parseDigits false (c :: cs)

/-! ## The reorder comparator (src/read_cache/process.rs, lines 90–109). -/

/-- Lexicographic comparison of char lists by code point; agrees with
Rust's byte-wise `str::cmp` because UTF-8 preserves code-point order. -/
def charListCmp : List Char → List Char → Ordering
  | [], [] => Ordering.eq
  | [], _ :: _ => Ordering.lt
  | _ :: _, [] => Ordering.gt
  | a :: as, b :: bs =>
    if a < b then Ordering.lt
    else if b < a then Ordering.gt
    else charListCmp as bs

/-- Rust `String::cmp`. -/
def strCmp (a b : String) : Ordering := charListCmp a.data b.data

/-- Rust `i32::cmp`. -/
def intCmp (a b : Int) : Ordering :=
  if a < b then Ordering.lt else if b < a then Ordering.gt else Ordering.eq

/-- The closure passed to `cache.items.sort_by`: parse both keys as `i32`;
two failures compare as strings, a parsed key sorts after an unparsed key,
two parsed keys compare numerically. -/
def keyCmp (key_a key_b : String) : Ordering :=
  match parse_i32 key_a, parse_i32 key_b with
  | none, none => strCmp key_a key_b
  | some _, none => Ordering.gt
  | none, some _ => Ordering.lt
  | some a, some b => intCmp a b

/-! ## The cache (the subset of `crate::cache` used by read-back). -/

/-- One cache entry (`CacheItem`). -/
structure CacheItem where
  name : String
  image_hash : String
  image_link : String
  metadata_hash : String
  metadata_link : String
  on_chain : Bool
  animation_hash : Option String
  animation_link : Option String
deriving DecidableEq

/-- The ordered key→item mapping of a cache (`IndexMap`), modelled as an
association list preserving insertion order. -/
abbrev Items := List (String × CacheItem)

/-- Rust `IndexMap::insert`: replace in place when the key is present,
append at the end otherwise. -/
def insertItem (items : Items) (k : String) (v : CacheItem) : Items :=
  if (items.map Prod.fst).contains k then
    items.map (fun p => if p.1 = k then (k, v) else p)
  else
    items ++ [(k, v)]

/-- The non-strict ordering relation induced by `keyCmp` on entries;
`sort_by cmp` orders entries so that `cmp` never answers `Greater` on an
adjacent pair. -/
def entryLe (p q : String × CacheItem) : Prop := keyCmp p.1 q.1 ≠ Ordering.gt

instance : DecidableRel entryLe := fun p q =>
  inferInstanceAs (Decidable (keyCmp p.1 q.1 ≠ Ordering.gt))

/-- Rust `IndexMap::sort_by` with the key comparator: a stable sort of the
entry list.  `sort_by` is documented as stable, and every stable sort
w.r.t. a fixed total preorder computes the same list, so the stable
`insertionSort` models it. -/
def reorder (items : Items) : Items := List.insertionSort entryLe items

/-! ## Configuration (src/config/data.rs). -/

/-- The `HiddenSettings` struct (src/config/data.rs, lines 307–312). -/
structure HiddenSettings where
  name : String
  uri : String
  hash : String
deriving DecidableEq

/-- The fields of `ConfigData` (src/config/data.rs, lines 34–83) read by
`process_read_cache`; the remaining fields (price, creators, upload
method, …) are never consulted on this path. -/
structure ConfigData where
  number : Nat
  hidden_settings : Option HiddenSettings
deriving DecidableEq

/-- The on-chain struct `mpl_candy_machine::HiddenSettings`: its `hash`
is a fixed 32-byte array, modelled as a byte list. -/
structure CandyHiddenSettings where
  name : String
  uri : String
  hash : List Nat
deriving DecidableEq

/-- Rust `HiddenSettings::to_candy_format` (src/config/data.rs, lines 318–324):
`self.hash.as_bytes().try_into().unwrap_or([0; 32])` keeps the UTF-8 bytes
when there are exactly 32 of them and silently substitutes 32 zero bytes
otherwise. -/
def HiddenSettings.to_candy_format (self : HiddenSettings) : CandyHiddenSettings :=
  { name := self.name
    uri := self.uri
    hash :=
      let bs := strBytes self.hash
      if bs.length = 32 then bs else List.replicate 32 0 }

/-! ## The network boundary.
`reqwest` responses are modelled as a status plus a body; `send()` itself
fails only on transport-level errors, in which case no response (and no
status) exists. -/

/-- The metadata subset parsed from remote JSON.
Modelled from the spec: `crate::validate::format::Metadata` is not among
the provided sources; per §3/§4.5 and §6 it must contain at least the
`name` and `image` string fields, which are the only ones read here. -/
structure Metadata where
  name : String
  image : String
deriving DecidableEq

/-- A response consumed via `.text()`: the body read can itself fail at
transport level. -/
structure TextResponse where
  status : Nat
  text : Except Unit String

/-- A response consumed via `.bytes_stream()`: a finite sequence of
chunks, each either delivered or failing at transport level. -/
structure StreamResponse where
  status : Nat
  chunks : List (Except Unit (List Nat))

/-- The external world of one run: what the HTTP client receives for each
URL (`Except.error` = transport-level failure), how remote JSON parses
into `Metadata` (`serde_json::from_str`, deterministic in the text), and
whether the final cache write succeeds. -/
structure World where
  send : String → Except Unit TextResponse
  sendStream : String → Except Unit StreamResponse
  parseMetadata : String → Option Metadata
  syncOk : Bool

/-- Errors surfaced by the run (the `anyhow` errors of the Rust code,
plus the cache-store errors of the spec's §4.1 taxonomy). -/
inductive RcError where
  | notFound
  | corruptFormat
  | unsupportedConfig
  | network (url : String)
  | metadataParse (url : String)
  | nameMismatch (url expected actual : String)
  | ioError
deriving DecidableEq

/-- Observable side effects, in order: the one cache load (with its
`create` flag) and each HTTP GET issued. -/
inductive Event where
  | cacheLoad (create : Bool)
  | httpGet (url : String)
deriving DecidableEq

/-- Model of `http_client.get(url).send().await?.text().await?`
(src/read_cache/process.rs, line 45): transport failures of `send` or of
the body read propagate; the status is never inspected and the body of
any delivered response is returned. -/
def get_text (w : World) (url : String) : Except RcError String :=
  match w.send url with
  | Except.error _ => Except.error (RcError.network url)
  | Except.ok r =>
    match r.text with
    | Except.error _ => Except.error (RcError.network url)
    | Except.ok t => Except.ok t

/-- Folding `context.update` over the chunk stream: the digest context
over successive chunks is the digest of their concatenation, and a
failing chunk aborts the whole hash. -/
def hashChunks : List (Except Unit (List Nat)) → List Nat → Except Unit (List Nat)
  | [], acc => Except.ok acc
  | Except.error _ :: _, _ => Except.error ()
  | Except.ok part :: rest, acc => hashChunks rest (acc ++ part)

/-- Rust `encode_url` (src/read_cache/process.rs, lines 124–136): stream the
body of `url`, folding each chunk into a SHA-256 context, and render the
digest in lowercase hex.  The status is never inspected. -/
def encode_url (w : World) (url : String) : Except RcError String :=
  match w.sendStream url with
  | Except.error _ => Except.error (RcError.network url)
  | Except.ok r =>
    match hashChunks r.chunks [] with
    | Except.error _ => Except.error (RcError.network url)
    | Except.ok bytes => Except.ok (hexEncode (SHA256.hash bytes))

/-! ## The cache store boundary. -/

/-- The on-disk cache file. -/
inductive DiskFile where
  | absent
  | corrupt
  | valid (items : Items)
deriving DecidableEq

/-- Modelled from the spec: `crate::cache::load_cache` is not among the
provided sources; per §4.1 `load(path, create_if_missing)` fails with
`NotFound` if the file is absent and the flag is false, creates an empty
cache if absent and the flag is true, fails with `CorruptFormat` on an
unparseable file, and otherwise returns the deserialized mapping in
on-disk order.  Only `sync_file` writes to disk. -/
def load_cache (d : DiskFile) (create : Bool) : Except RcError Items :=
  match d with
  | DiskFile.absent => if create then Except.ok [] else Except.error RcError.notFound
  | DiskFile.corrupt => Except.error RcError.corruptFormat
  | DiskFile.valid items => Except.ok items

/-- Modelled from the spec: `mpl_candy_machine_core::replace_patterns` is
an external dependency; per §4.2/§8 the pattern expander replaces every
occurrence of the `$ID$` placeholder with the decimal form of the index.
Structural recursion over the character list. -/
def replaceID : List Char → List Char → List Char
  | [], _ => []
  | '$' :: 'I' :: 'D' :: '$' :: rest, repl => repl ++ replaceID rest repl
  | c :: rest, repl => c :: replaceID rest repl

/-- The pattern expander applied to a template and an index. -/
def replace_patterns (value : String) (index : Nat) : String :=
  String.mk (replaceID value.data (toString index).data)

/-! ## The reconciliation engine (src/read_cache/process.rs, lines 26–113). -/

/-- The body of one `for index in 0..config_data.number` iteration:
derive the expected name and metadata URI, fetch the metadata text, parse
it, check the name, hash the metadata text, stream-hash the image, and
insert the resulting `CacheItem` at key `index.to_string()`.  Returns the
updated items or the first error, together with the HTTP events issued. -/
def reconcileStep (w : World) (nameTpl uriTpl : String) (index : Nat)
    (items : Items) : Except RcError Items × List Event :=
  let name := replace_patterns nameTpl index
  let metadata_link := replace_patterns uriTpl index
  match get_text w metadata_link with
  | Except.error e => (Except.error e, [Event.httpGet metadata_link])
  | Except.ok metadata_text =>
    match w.parseMetadata metadata_text with
    | none => (Except.error (RcError.metadataParse metadata_link), [Event.httpGet metadata_link])
    | some metadata =>
      if metadata.name ≠ name then
        (Except.error (RcError.nameMismatch metadata_link name metadata.name),
         [Event.httpGet metadata_link])
      else
        let metadata_hash := encode_text metadata_text
        let image_link := metadata.image
        match encode_url w image_link with
        | Except.error e =>
          (Except.error e, [Event.httpGet metadata_link, Event.httpGet image_link])
        | Except.ok image_hash =>
          (Except.ok (insertItem items (toString index)
            { name := name
              image_hash := image_hash
              image_link := image_link
              metadata_hash := metadata_hash
              metadata_link := metadata_link
              on_chain := false
              animation_hash := none
              animation_link := none }),
           [Event.httpGet metadata_link, Event.httpGet image_link])

/-- The loop `for index in 0..number`, run from `index` for `remaining`
more iterations: fail-fast on the first failing step. -/
def reconcileAux (w : World) (nameTpl uriTpl : String) :
    Nat → Nat → Items → Except RcError Items × List Event
  | _, 0, items => (Except.ok items, [])
  | index, remaining + 1, items =>
    match reconcileStep w nameTpl uriTpl index items with
    | (Except.error e, evs) => (Except.error e, evs)
    | (Except.ok items', evs) =>
      let rest := reconcileAux w nameTpl uriTpl (index + 1) remaining items'
      (rest.1, evs ++ rest.2)

instance {ε α : Type} [DecidableEq ε] [DecidableEq α] : DecidableEq (Except ε α) :=
  fun x y =>
    match x, y with
    | Except.ok a, Except.ok b =>
      if h : a = b then isTrue (by rw [h]) else isFalse (by simp [h])
    | Except.error e, Except.error f =>
      if h : e = f then isTrue (by rw [h]) else isFalse (by simp [h])
    | Except.ok _, Except.error _ => isFalse (by simp)
    | Except.error _, Except.ok _ => isFalse (by simp)

/-- The outcome of one run: the result value, the on-disk file afterwards,
and the observable events in order. -/
structure RunResult where
  result : Except RcError Unit
  disk : DiskFile
  events : List Event
deriving DecidableEq

/-- Rust `process_read_cache` (src/read_cache/process.rs, lines 26–113): load
(or create) the cache, then — only if the configuration carries hidden
settings — run the reconciliation loop over all indices, sort the entries
with the key comparator and sync the file; any failure aborts the run
before the sync, leaving the disk untouched. -/
def process_read_cache (config_data : ConfigData) (w : World) (disk : DiskFile) : RunResult :=
  match load_cache disk true with
  | Except.error e => ⟨Except.error e, disk, [Event.cacheLoad true]⟩
  | Except.ok items =>
    match config_data.hidden_settings with
    | some (HiddenSettings.mk name uri _) =>
      match reconcileAux w name uri 0 config_data.number items with
      | (Except.error e, evs) => ⟨Except.error e, disk, Event.cacheLoad true :: evs⟩
      | (Except.ok items', evs) =>
        if w.syncOk then
          ⟨Except.ok (), DiskFile.valid (reorder items'), Event.cacheLoad true :: evs⟩
        else
          ⟨Except.error RcError.ioError, disk, Event.cacheLoad true :: evs⟩
    | none => ⟨Except.error RcError.unsupportedConfig, disk, [Event.cacheLoad true]⟩

/-! ## Properties of the key comparator. -/

theorem charListCmp_eq_iff : ∀ a b : List Char, charListCmp a b = Ordering.eq ↔ a = b
  | [], [] => by simp [charListCmp]
  | [], _ :: _ => by simp [charListCmp]
  | _ :: _, [] => by simp [charListCmp]
  | a :: as, b :: bs => by
    simp only [charListCmp]
    split_ifs with h1 h2
    · simp [List.cons.injEq, ne_of_lt h1]
    · simp [List.cons.injEq, (ne_of_lt h2).symm]
    · have hab : a = b := le_antisymm (not_lt.mp h2) (not_lt.mp h1)
      simp [hab, List.cons.injEq, charListCmp_eq_iff as bs]

theorem charListCmp_swap : ∀ a b : List Char, charListCmp b a = (charListCmp a b).swap
  | [], [] => rfl
  | [], _ :: _ => rfl
  | _ :: _, [] => rfl
  | a :: as, b :: bs => by
    simp only [charListCmp]
    rcases lt_trichotomy a b with h | h | h
    · simp only [if_pos h, if_neg (asymm h)]
      rfl
    · subst h
      simp only [if_neg (lt_irrefl a)]
      exact charListCmp_swap as bs
    · simp only [if_pos h, if_neg (asymm h)]
      rfl

theorem charListCmp_lt_trans :
    ∀ a b c : List Char, charListCmp a b = Ordering.lt →
      charListCmp b c = Ordering.lt → charListCmp a c = Ordering.lt
  | [], [], _, h1, _ => by simp [charListCmp] at h1
  | [], _ :: _, [], _, h2 => by simp [charListCmp] at h2
  | [], _ :: _, _ :: _, _, _ => rfl
  | _ :: _, [], _, h1, _ => by simp [charListCmp] at h1
  | _ :: _, _ :: _, [], _, h2 => by simp [charListCmp] at h2
  | a :: as, b :: bs, c :: cs, h1, h2 => by
    simp only [charListCmp] at h1 h2 ⊢
    rcases lt_trichotomy a b with hab | hab | hab
    · rcases lt_trichotomy b c with hbc | hbc | hbc
      · simp only [if_pos (lt_trans hab hbc)]
      · subst hbc
        simp only [if_pos hab]
      · rw [if_neg (asymm hbc), if_pos hbc] at h2
        exact absurd h2 (by simp)
    · subst hab
      rcases lt_trichotomy a c with hac | hac | hac
      · simp only [if_pos hac]
      · subst hac
        simp only [if_neg (lt_irrefl a)] at h1 h2 ⊢
        exact charListCmp_lt_trans as bs cs h1 h2
      · rw [if_neg (asymm hac), if_pos hac] at h2
        exact absurd h2 (by simp)
    · rw [if_neg (asymm hab), if_pos hab] at h1
      exact absurd h1 (by simp)

theorem strCmp_eq_iff (a b : String) : strCmp a b = Ordering.eq ↔ a = b := by
  constructor
  · intro h
    cases a with
    | mk da =>
      cases b with
      | mk db =>
        have hd : da = db := (charListCmp_eq_iff da db).mp h
        rw [hd]
  · intro h
    subst h
    exact (charListCmp_eq_iff a.data a.data).mpr rfl

theorem intCmp_eq_iff (a b : Int) : intCmp a b = Ordering.eq ↔ a = b := by
  unfold intCmp
  split_ifs <;> simp_all <;> omega

theorem keyCmp_refl (a : String) : keyCmp a a = Ordering.eq := by
  unfold keyCmp
  cases parse_i32 a with
  | none => exact (strCmp_eq_iff a a).mpr rfl
  | some n => exact (intCmp_eq_iff n n).mpr rfl

theorem intCmp_swap (a b : Int) : intCmp b a = (intCmp a b).swap := by
  unfold intCmp
  split_ifs <;> first | rfl | omega

theorem keyCmp_swap (a b : String) : keyCmp b a = (keyCmp a b).swap := by
  unfold keyCmp
  cases parse_i32 a with
  | none =>
    cases parse_i32 b with
    | none => exact charListCmp_swap a.data b.data
    | some _ => rfl
  | some n =>
    cases parse_i32 b with
    | none => rfl
    | some m => exact intCmp_swap n m

theorem intCmp_lt_trans {a b c : Int} (h1 : intCmp a b = Ordering.lt)
    (h2 : intCmp b c = Ordering.lt) : intCmp a c = Ordering.lt := by
  unfold intCmp at h1 h2 ⊢
  split_ifs at h1 h2 ⊢ <;> simp_all <;> omega

theorem keyCmp_lt_trans {a b c : String} (h1 : keyCmp a b = Ordering.lt)
    (h2 : keyCmp b c = Ordering.lt) : keyCmp a c = Ordering.lt := by
  unfold keyCmp at h1 h2 ⊢
  cases hpa : parse_i32 a <;> cases hpb : parse_i32 b <;> cases hpc : parse_i32 c <;>
      simp only [hpa, hpb, hpc] at h1 h2 ⊢ <;>
    first
      | rfl
      | exact h1
      | exact h2
      | exact Ordering.noConfusion h1
      | exact Ordering.noConfusion h2
      | exact charListCmp_lt_trans a.data b.data c.data h1 h2
      | exact intCmp_lt_trans h1 h2

theorem keyCmp_eq_trans {a b c : String} (h1 : keyCmp a b = Ordering.eq)
    (h2 : keyCmp b c = Ordering.eq) : keyCmp a c = Ordering.eq := by
  unfold keyCmp at h1 h2 ⊢
  cases hpa : parse_i32 a <;> cases hpb : parse_i32 b <;> cases hpc : parse_i32 c <;>
      simp only [hpa, hpb, hpc] at h1 h2 ⊢ <;>
    first
      | rfl
      | exact h1
      | exact h2
      | exact Ordering.noConfusion h1
      | exact Ordering.noConfusion h2
      | exact (strCmp_eq_iff a c).mpr
          (((strCmp_eq_iff a b).mp h1).trans ((strCmp_eq_iff b c).mp h2))
      | exact (intCmp_eq_iff _ _).mpr
          (((intCmp_eq_iff _ _).mp h1).trans ((intCmp_eq_iff _ _).mp h2))

theorem keyCmp_lt_of_lt_of_eq {a b c : String} (h1 : keyCmp a b = Ordering.lt)
    (h2 : keyCmp b c = Ordering.eq) : keyCmp a c = Ordering.lt := by
  unfold keyCmp at h1 h2 ⊢
  cases hpa : parse_i32 a <;> cases hpb : parse_i32 b <;> cases hpc : parse_i32 c <;>
      simp only [hpa, hpb, hpc] at h1 h2 ⊢ <;>
    first
      | rfl
      | exact h1
      | exact h2
      | exact Ordering.noConfusion h1
      | exact Ordering.noConfusion h2
      | exact ((strCmp_eq_iff b c).mp h2) ▸ h1
      | exact ((intCmp_eq_iff _ _).mp h2) ▸ h1

theorem keyCmp_lt_of_eq_of_lt {a b c : String} (h1 : keyCmp a b = Ordering.eq)
    (h2 : keyCmp b c = Ordering.lt) : keyCmp a c = Ordering.lt := by
  unfold keyCmp at h1 h2 ⊢
  cases hpa : parse_i32 a <;> cases hpb : parse_i32 b <;> cases hpc : parse_i32 c <;>
      simp only [hpa, hpb, hpc] at h1 h2 ⊢ <;>
    first
      | rfl
      | exact h1
      | exact h2
      | exact Ordering.noConfusion h1
      | exact Ordering.noConfusion h2
      | exact ((strCmp_eq_iff a b).mp h1).symm ▸ h2
      | exact ((intCmp_eq_iff _ _).mp h1).symm ▸ h2

/-- The comparator `keyCmp` never answers `Greater` exactly when it answers `Less` or
`Equal`. -/
theorem keyCmp_ne_gt_iff {a b : String} :
    keyCmp a b ≠ Ordering.gt ↔ keyCmp a b = Ordering.lt ∨ keyCmp a b = Ordering.eq := by
  cases h : keyCmp a b <;> simp [h]

instance : IsTotal (String × CacheItem) entryLe where
  total p q := by
    unfold entryLe
    rcases h : keyCmp p.1 q.1 with _ | _ | _
    · exact Or.inl (by simp [h])
    · exact Or.inl (by simp [h])
    · refine Or.inr ?_
      rw [keyCmp_swap p.1 q.1, h]
      decide

instance : IsTrans (String × CacheItem) entryLe where
  trans p q r h1 h2 := by
    unfold entryLe at h1 h2 ⊢
    rw [keyCmp_ne_gt_iff] at h1 h2 ⊢
    rcases h1 with h1 | h1 <;> rcases h2 with h2 | h2
    · exact Or.inl (keyCmp_lt_trans h1 h2)
    · exact Or.inl (keyCmp_lt_of_lt_of_eq h1 h2)
    · exact Or.inl (keyCmp_lt_of_eq_of_lt h1 h2)
    · exact Or.inr (keyCmp_eq_trans h1 h2)

/-- Idempotence of `reorder`. -/
theorem reorder_reorder (items : Items) : reorder (reorder items) = reorder items :=
  List.Sorted.insertionSort_eq (List.sorted_insertionSort entryLe items)

/-! ## Well-formedness of the hex digests. -/

/-- A lowercase hex character. -/
def isHexLowerChar (c : Char) : Bool :=
  (48 ≤ c.toNat && c.toNat ≤ 57) || (97 ≤ c.toNat && c.toNat ≤ 102)

/-- A 64-character lowercase hex string. -/
def isHex64 (s : String) : Bool :=
  s.data.length == 64 && s.data.all isHexLowerChar

theorem hexDigit_isHexLowerChar {n : Nat} (h : n < 16) :
    isHexLowerChar (hexDigit n) = true := by
  interval_cases n <;> decide

theorem hexByte_all {b : Nat} (hb : b < 256) :
    ∀ c ∈ hexByte b, isHexLowerChar c = true := by
  have h1 : b / 16 < 16 := by omega
  have h2 : b % 16 < 16 := Nat.mod_lt _ (by norm_num)
  intro c hc
  simp only [hexByte, List.mem_cons, List.mem_singleton, List.not_mem_nil, or_false] at hc
  rcases hc with rfl | rfl
  · exact hexDigit_isHexLowerChar h1
  · exact hexDigit_isHexLowerChar h2

theorem flatMap_hexByte_length (bs : List Nat) :
    (bs.flatMap hexByte).length = 2 * bs.length := by
  induction bs with
  | nil => simp
  | cons b rest ih => simp [hexByte, ih]; omega

theorem flatMap_hexByte_all {bs : List Nat} (h : ∀ b ∈ bs, b < 256) :
    ∀ c ∈ bs.flatMap hexByte, isHexLowerChar c = true := by
  induction bs with
  | nil => simp
  | cons b rest ih =>
    intro c hc
    simp only [List.flatMap_cons, List.mem_append] at hc
    rcases hc with hc | hc
    · exact hexByte_all (h b (List.mem_cons_self b rest)) c hc
    · exact ih (fun x hx => h x (List.mem_cons_of_mem b hx)) c hc

theorem wordBytes_lt (x : Nat) : ∀ b ∈ SHA256.wordBytes x, b < 256 := by
  intro b hb
  simp only [SHA256.wordBytes, List.mem_cons, List.mem_singleton, List.not_mem_nil,
    or_false] at hb
  rcases hb with rfl | rfl | rfl | rfl <;> exact Nat.mod_lt _ (by norm_num)

theorem hash_length (m : List Nat) : (SHA256.hash m).length = 32 := by
  simp [SHA256.hash, SHA256.regsBytes, SHA256.wordBytes]

theorem hash_lt (m : List Nat) : ∀ b ∈ SHA256.hash m, b < 256 := by
  intro b hb
  simp only [SHA256.hash, SHA256.regsBytes, List.mem_append] at hb
  rcases hb with ((((((hb | hb) | hb) | hb) | hb) | hb) | hb) | hb <;>
    exact wordBytes_lt _ b hb

/-- Every digest rendered from a SHA-256 hash is 64 lowercase hex
characters. -/
theorem isHex64_hexEncode_hash (m : List Nat) :
    isHex64 (hexEncode (SHA256.hash m)) = true := by
  have hlen : ((SHA256.hash m).flatMap hexByte).length = 64 := by
    rw [flatMap_hexByte_length, hash_length]
  have hall := flatMap_hexByte_all (hash_lt m)
  simp only [isHex64, hexEncode, Bool.and_eq_true, beq_iff_eq, List.all_eq_true]
  exact ⟨hlen, fun c hc => hall c hc⟩

theorem isHex64_encode_text (s : String) : isHex64 (encode_text s) = true :=
  isHex64_hexEncode_hash (strBytes s)

theorem encode_url_ok_isHex64 {w : World} {url s : String}
    (h : encode_url w url = Except.ok s) : isHex64 s = true := by
  unfold encode_url at h
  split at h
  · exact absurd h (by simp)
  · split at h
    · exact absurd h (by simp)
    · injection h with h
      rw [← h]
      exact isHex64_hexEncode_hash _

/-! ## Decimal keys: `index.to_string()` and its interaction with the
comparator. -/

/-- Decimal value of a digit list. -/
def decVal (cs : List Char) : Nat :=
  cs.foldl (fun a c => a * 10 + (c.toNat - 48)) 0

theorem digitChar_toNat {m : Nat} (h : m < 10) :
    (Nat.digitChar m).toNat = 48 + m := by
  interval_cases m <;> decide

/-- Core `Nat.toDigitsCore` prepends a non-empty digit string whose decimal
value is the number. -/
theorem toDigitsCore_spec :
    ∀ (fuel n : Nat) (ds : List Char), n < fuel →
      ∃ pre, Nat.toDigitsCore 10 fuel n ds = pre ++ ds ∧ pre ≠ [] ∧
        (∀ c ∈ pre, 48 ≤ c.toNat ∧ c.toNat ≤ 57) ∧ decVal pre = n := by
  intro fuel
  induction fuel with
  | zero => intro n ds h; omega
  | succ fuel ih =>
    intro n ds h
    rw [Nat.toDigitsCore]
    by_cases hz : n / 10 = 0
    · refine ⟨[Nat.digitChar (n % 10)], by simp [hz], by simp, ?_, ?_⟩
      · intro c hc
        simp only [List.mem_singleton] at hc
        subst hc
        rw [digitChar_toNat (Nat.mod_lt _ (by norm_num))]
        omega
      · have hn : n < 10 := by omega
        simp only [decVal, List.foldl_cons, List.foldl_nil]
        rw [Nat.mod_eq_of_lt hn, digitChar_toNat hn]
        omega
    · have hge : 10 ≤ n := by
        by_contra hlt
        exact hz (Nat.div_eq_of_lt (by omega))
      have hlt : n / 10 < fuel := by
        have := Nat.div_lt_self (by omega : 0 < n) (by norm_num : 1 < 10)
        omega
      obtain ⟨pre, hpre, hne, hdig, hval⟩ :=
        ih (n / 10) (Nat.digitChar (n % 10) :: ds) hlt
      rw [if_neg hz, hpre]
      refine ⟨pre ++ [Nat.digitChar (n % 10)], by simp, by simp, ?_, ?_⟩
      · intro c hc
        rcases List.mem_append.mp hc with hc | hc
        · exact hdig c hc
        · simp only [List.mem_singleton] at hc
          subst hc
          rw [digitChar_toNat (Nat.mod_lt _ (by norm_num))]
          omega
      · simp only [decVal, List.foldl_append] at hval ⊢
        rw [hval]
        simp only [List.foldl_cons, List.foldl_nil]
        rw [digitChar_toNat (Nat.mod_lt _ (by norm_num))]
        omega

/-- The decimal representation underlying `toString : Nat → String`. -/
theorem toString_nat_spec (n : Nat) :
    ∃ pre, (toString n).data = pre ∧ pre ≠ [] ∧
      (∀ c ∈ pre, 48 ≤ c.toNat ∧ c.toNat ≤ 57) ∧ decVal pre = n := by
  obtain ⟨pre, hpre, hne, hdig, hval⟩ :=
    toDigitsCore_spec (n + 1) n [] (Nat.lt_succ_self n)
  refine ⟨pre, ?_, hne, hdig, hval⟩
  show (Nat.toDigits 10 n).asString.data = pre
  rw [Nat.toDigits, hpre]
  simp [List.asString]

/-- Injectivity of `index.to_string()`. -/
theorem toString_nat_inj {m n : Nat} (h : toString m = toString n) : m = n := by
  obtain ⟨pm, hpm, _, _, hvm⟩ := toString_nat_spec m
  obtain ⟨pn, hpn, _, _, hvn⟩ := toString_nat_spec n
  have hd : (toString m).data = (toString n).data := by rw [h]
  rw [hpm, hpn] at hd
  rw [← hvm, ← hvn, hd]

theorem digitsValAux_of_digits :
    ∀ (cs : List Char) (acc : Nat), (∀ c ∈ cs, 48 ≤ c.toNat ∧ c.toNat ≤ 57) →
      digitsValAux cs acc = some (cs.foldl (fun a c => a * 10 + (c.toNat - 48)) acc) := by
  intro cs
  induction cs with
  | nil => intro acc _; rfl
  | cons c rest ih =>
    intro acc hdig
    have hc := hdig c (List.mem_cons_self c rest)
    simp only [digitsValAux, digitVal, if_pos hc]
    exact ih _ (fun x hx => hdig x (List.mem_cons_of_mem c hx))

/-- For indices within the `i32` range, the decimal key round-trips
through `parse_i32`. -/
theorem parse_i32_toString {n : Nat} (h : n ≤ 2147483647) :
    parse_i32 (toString n) = some (n : Int) := by
  obtain ⟨pre, hpre, hne, hdig, hval⟩ := toString_nat_spec n
  unfold parse_i32
  rw [hpre]
  cases pre with
  | nil => exact absurd rfl hne
  | cons c cs =>
    have hc := hdig c (List.mem_cons_self c cs)
    have hplus : c ≠ '+' := by
      intro hcp
      rw [hcp] at hc
      simp at hc
    have hminus : c ≠ '-' := by
      intro hcp
      rw [hcp] at hc
      simp at hc
    show (if c = '+' then parseDigits false cs
      else if c = '-' then parseDigits true cs
      else parseDigits false (c :: cs)) = some (n : Int)
    rw [if_neg hplus, if_neg hminus]
    have hd := digitsValAux_of_digits (c :: cs) 0 hdig
    have hv : (c :: cs).foldl (fun a x => a * 10 + (x.toNat - 48)) 0 = n := hval
    rw [hv] at hd
    simp [parseDigits, hd, h]

/-! ## `IndexMap::insert` membership lemmas. -/

theorem mem_insertItem_self (items : Items) (k : String) (v : CacheItem) :
    (k, v) ∈ insertItem items k v := by
  unfold insertItem
  split_ifs with h
  · have h' : k ∈ items.map Prod.fst := by simpa using h
    obtain ⟨p, hp, hpk⟩ := List.mem_map.mp h'
    exact List.mem_map.mpr ⟨p, hp, by rw [if_pos hpk]⟩
  · exact List.mem_append.mpr (Or.inr (List.mem_singleton.mpr rfl))

theorem mem_insertItem_of_ne {items : Items} {p : String × CacheItem} {k : String}
    {v : CacheItem} (hp : p ∈ items) (hne : p.1 ≠ k) : p ∈ insertItem items k v := by
  unfold insertItem
  split_ifs with h
  · exact List.mem_map.mpr ⟨p, hp, by rw [if_neg hne]⟩
  · exact List.mem_append.mpr (Or.inl hp)

theorem mem_of_mem_insertItem {items : Items} {p : String × CacheItem} {k : String}
    {v : CacheItem} (hp : p ∈ insertItem items k v) : p ∈ items ∨ p = (k, v) := by
  unfold insertItem at hp
  split_ifs at hp with h
  · obtain ⟨q, hq, hqp⟩ := List.mem_map.mp hp
    by_cases hqk : q.1 = k
    · rw [if_pos hqk] at hqp
      exact Or.inr hqp.symm
    · rw [if_neg hqk] at hqp
      exact Or.inl (hqp ▸ hq)
  · rcases List.mem_append.mp hp with hp | hp
    · exact Or.inl hp
    · exact Or.inr (List.mem_singleton.mp hp)

/-! ## The shape of successful iterations and of the loop. -/

/-- The fields every successfully reconciled entry carries. -/
def goodItem (nameTpl uriTpl : String) (j : Nat) (e : CacheItem) : Prop :=
  e.name = replace_patterns nameTpl j ∧
  e.metadata_link = replace_patterns uriTpl j ∧
  e.on_chain = false ∧
  e.animation_hash = none ∧
  e.animation_link = none ∧
  isHex64 e.metadata_hash = true ∧
  isHex64 e.image_hash = true

/-- Step computation: a failing metadata fetch is the step's error, after
one HTTP GET. -/
theorem reconcileStep_fetch_error {w : World} {nameTpl uriTpl : String} {i : Nat}
    {items : Items} {e : RcError}
    (hg : get_text w (replace_patterns uriTpl i) = Except.error e) :
    reconcileStep w nameTpl uriTpl i items =
      (Except.error e, [Event.httpGet (replace_patterns uriTpl i)]) := by
  simp only [reconcileStep, hg]

/-- Step computation: unparseable metadata is fatal, after one HTTP GET. -/
theorem reconcileStep_parse_none {w : World} {nameTpl uriTpl : String} {i : Nat}
    {items : Items} {txt : String}
    (hg : get_text w (replace_patterns uriTpl i) = Except.ok txt)
    (hp : w.parseMetadata txt = none) :
    reconcileStep w nameTpl uriTpl i items =
      (Except.error (RcError.metadataParse (replace_patterns uriTpl i)),
       [Event.httpGet (replace_patterns uriTpl i)]) := by
  simp only [reconcileStep, hg, hp]

/-- Step computation: a name mismatch is fatal, after one HTTP GET, and
the error carries the expected and the actual name. -/
theorem reconcileStep_mismatch {w : World} {nameTpl uriTpl : String} {i : Nat}
    {items : Items} {txt : String} {md : Metadata}
    (hg : get_text w (replace_patterns uriTpl i) = Except.ok txt)
    (hp : w.parseMetadata txt = some md)
    (hname : md.name ≠ replace_patterns nameTpl i) :
    reconcileStep w nameTpl uriTpl i items =
      (Except.error (RcError.nameMismatch (replace_patterns uriTpl i)
        (replace_patterns nameTpl i) md.name),
       [Event.httpGet (replace_patterns uriTpl i)]) := by
  simp only [reconcileStep, hg, hp]
  rw [if_pos hname]

/-- Step computation: a failing image stream is fatal, after both GETs. -/
theorem reconcileStep_stream_error {w : World} {nameTpl uriTpl : String} {i : Nat}
    {items : Items} {txt : String} {md : Metadata} {e : RcError}
    (hg : get_text w (replace_patterns uriTpl i) = Except.ok txt)
    (hp : w.parseMetadata txt = some md)
    (hname : md.name = replace_patterns nameTpl i)
    (hu : encode_url w md.image = Except.error e) :
    reconcileStep w nameTpl uriTpl i items =
      (Except.error e,
       [Event.httpGet (replace_patterns uriTpl i), Event.httpGet md.image]) := by
  simp only [reconcileStep, hg, hp, hu]
  rw [if_neg (by simp [hname])]

/-- Step computation: the successful iteration inserts the reconciled
entry at key `i.to_string()`. -/
theorem reconcileStep_success {w : World} {nameTpl uriTpl : String} {i : Nat}
    {items : Items} {txt : String} {md : Metadata} {ihash : String}
    (hg : get_text w (replace_patterns uriTpl i) = Except.ok txt)
    (hp : w.parseMetadata txt = some md)
    (hname : md.name = replace_patterns nameTpl i)
    (hu : encode_url w md.image = Except.ok ihash) :
    reconcileStep w nameTpl uriTpl i items =
      (Except.ok (insertItem items (toString i)
        { name := replace_patterns nameTpl i
          image_hash := ihash
          image_link := md.image
          metadata_hash := encode_text txt
          metadata_link := replace_patterns uriTpl i
          on_chain := false
          animation_hash := none
          animation_link := none }),
       [Event.httpGet (replace_patterns uriTpl i), Event.httpGet md.image]) := by
  simp only [reconcileStep, hg, hp, hu]
  rw [if_neg (by simp [hname])]

theorem reconcileStep_ok {w : World} {nameTpl uriTpl : String} {i : Nat}
    {items out : Items} {evs : List Event}
    (h : reconcileStep w nameTpl uriTpl i items = (Except.ok out, evs)) :
    ∃ itm, out = insertItem items (toString i) itm ∧ goodItem nameTpl uriTpl i itm := by
  cases hg : get_text w (replace_patterns uriTpl i) with
  | error e =>
    rw [reconcileStep_fetch_error hg] at h
    exact absurd h (by simp)
  | ok txt =>
    cases hp : w.parseMetadata txt with
    | none =>
      rw [reconcileStep_parse_none hg hp] at h
      exact absurd h (by simp)
    | some md =>
      by_cases hname : md.name = replace_patterns nameTpl i
      · cases hu : encode_url w md.image with
        | error e =>
          rw [reconcileStep_stream_error hg hp hname hu] at h
          exact absurd h (by simp)
        | ok ihash =>
          rw [reconcileStep_success hg hp hname hu] at h
          simp only [Prod.mk.injEq, Except.ok.injEq] at h
          refine ⟨_, h.1.symm, rfl, rfl, rfl, rfl, rfl, ?_, ?_⟩
          · exact isHex64_encode_text txt
          · exact encode_url_ok_isHex64 hu
      · rw [reconcileStep_mismatch hg hp hname] at h
        exact absurd h (by simp)

/-- Everything the loop guarantees when it succeeds: every index in the
window got an entry with the reconciled fields, every pre-existing entry
either had an index key or survives untouched, and every final entry is
either pre-existing or a reconciled one. -/
theorem reconcileAux_ok {w : World} {nameTpl uriTpl : String} :
    ∀ (r index : Nat) (items final : Items) (evs : List Event),
      reconcileAux w nameTpl uriTpl index r items = (Except.ok final, evs) →
      (∀ j, index ≤ j → j < index + r →
        ∃ e, (toString j, e) ∈ final ∧ goodItem nameTpl uriTpl j e) ∧
      (∀ p : String × CacheItem, p ∈ items →
        (∃ j, index ≤ j ∧ j < index + r ∧ p.1 = toString j) ∨ p ∈ final) ∧
      (∀ p : String × CacheItem, p ∈ final →
        p ∈ items ∨
          ∃ j, index ≤ j ∧ j < index + r ∧ p.1 = toString j ∧
            goodItem nameTpl uriTpl j p.2) := by
  intro r
  induction r with
  | zero =>
    intro index items final evs h
    simp only [reconcileAux, Prod.mk.injEq, Except.ok.injEq] at h
    obtain ⟨rfl, _⟩ := h
    refine ⟨?_, fun p hp => Or.inr hp, fun p hp => Or.inl hp⟩
    intro j hj1 hj2
    exact absurd hj2 (by omega)
  | succ r ih =>
    intro index items final evs h
    rw [reconcileAux] at h
    rcases hs : reconcileStep w nameTpl uriTpl index items with ⟨res, evs0⟩
    rw [hs] at h
    cases res with
    | error e => exact absurd h (by simp)
    | ok items' =>
      simp only [Prod.mk.injEq] at h
      rcases hrest : reconcileAux w nameTpl uriTpl (index + 1) r items' with ⟨res2, evs2⟩
      rw [hrest] at h
      simp only at h
      obtain ⟨hres2, _⟩ := h
      rw [hres2] at hrest
      obtain ⟨itm, hitems', hgood⟩ := reconcileStep_ok hs
      obtain ⟨ih1, ih2, ih3⟩ := ih (index + 1) items' final evs2 hrest
      subst hitems'
      refine ⟨?_, ?_, ?_⟩
      · intro j hj1 hj2
        rcases Nat.eq_or_lt_of_le hj1 with heq | hj1'
        · -- the entry inserted at this very index survives to the end
          rcases ih2 (toString index, itm) (mem_insertItem_self items _ itm) with
            ⟨j', hj'1, _, hj'⟩ | hmem
          · exact absurd (toString_nat_inj hj') (by omega)
          · exact ⟨itm, heq ▸ hmem, heq ▸ hgood⟩
        · exact ih1 j (by omega) (by omega)
      · intro p hp
        by_cases hpk : p.1 = toString index
        · exact Or.inl ⟨index, le_refl index, by omega, hpk⟩
        · rcases ih2 p (mem_insertItem_of_ne hp hpk) with ⟨j, hj1, hj2, hj3⟩ | hmem
          · exact Or.inl ⟨j, by omega, by omega, hj3⟩
          · exact Or.inr hmem
      · intro p hp
        rcases ih3 p hp with hmem | ⟨j, hj1, hj2, hj3, hj4⟩
        · rcases mem_of_mem_insertItem hmem with hmem' | rfl
          · exact Or.inl hmem'
          · exact Or.inr ⟨index, le_refl index, by omega, rfl, hgood⟩
        · exact Or.inr ⟨j, by omega, by omega, hj3, hj4⟩

/-- The loop never touches the first slot of the result on failure:
failures propagate unchanged (fail-fast), and the loop starting at the
failing index reports that step's error with that step's events. -/
theorem reconcileAux_step_error {w : World} {nameTpl uriTpl : String}
    {index r : Nat} {items : Items} {e : RcError} {evs : List Event}
    (h : reconcileStep w nameTpl uriTpl index items = (Except.error e, evs)) :
    reconcileAux w nameTpl uriTpl index (r + 1) items = (Except.error e, evs) := by
  rw [reconcileAux, h]

/-- The fetch `get_text` only ever fails with the transport error for its URL. -/
theorem get_text_error_shape {w : World} {url : String} {e : RcError}
    (h : get_text w url = Except.error e) : e = RcError.network url := by
  unfold get_text at h
  split at h
  · injection h with h
    exact h.symm
  · split at h
    · injection h with h
      exact h.symm
    · exact absurd h (by simp)

/-- The stream hash `encode_url` only ever fails with the transport error for its URL. -/
theorem encode_url_error_shape {w : World} {url : String} {e : RcError}
    (h : encode_url w url = Except.error e) : e = RcError.network url := by
  unfold encode_url at h
  split at h
  · injection h with h
    exact h.symm
  · split at h
    · injection h with h
      exact h.symm
    · exact absurd h (by simp)

/-- The error of a failing iteration is a fetch, parse or name-mismatch
error — never a cache-store error. -/
theorem reconcileStep_error_shape {w : World} {nameTpl uriTpl : String} {i : Nat}
    {items : Items} {e : RcError} {evs : List Event}
    (h : reconcileStep w nameTpl uriTpl i items = (Except.error e, evs)) :
    (∃ url, e = RcError.network url) ∨ (∃ url, e = RcError.metadataParse url) ∨
      (∃ url x a, e = RcError.nameMismatch url x a) := by
  cases hg : get_text w (replace_patterns uriTpl i) with
  | error e' =>
    rw [reconcileStep_fetch_error hg] at h
    simp only [Prod.mk.injEq] at h
    obtain ⟨h1, _⟩ := h
    injection h1 with h1
    subst h1
    exact Or.inl ⟨_, get_text_error_shape hg⟩
  | ok txt =>
    cases hp : w.parseMetadata txt with
    | none =>
      rw [reconcileStep_parse_none hg hp] at h
      simp only [Prod.mk.injEq] at h
      obtain ⟨h1, _⟩ := h
      injection h1 with h1
      subst h1
      exact Or.inr (Or.inl ⟨_, rfl⟩)
    | some md =>
      by_cases hname : md.name = replace_patterns nameTpl i
      · cases hu : encode_url w md.image with
        | error e' =>
          rw [reconcileStep_stream_error hg hp hname hu] at h
          simp only [Prod.mk.injEq] at h
          obtain ⟨h1, _⟩ := h
          injection h1 with h1
          subst h1
          exact Or.inl ⟨_, encode_url_error_shape hu⟩
        | ok ihash =>
          rw [reconcileStep_success hg hp hname hu] at h
          simp only [Prod.mk.injEq] at h
          exact absurd h.1 (by simp)
      · rw [reconcileStep_mismatch hg hp hname] at h
        simp only [Prod.mk.injEq] at h
        obtain ⟨h1, _⟩ := h
        injection h1 with h1
        subst h1
        exact Or.inr (Or.inr ⟨_, _, _, rfl⟩)

/-- Loop-level version of `reconcileStep_error_shape`. -/
theorem reconcileAux_error_shape {w : World} {nameTpl uriTpl : String} :
    ∀ (r index : Nat) (items : Items) (e : RcError) (evs : List Event),
      reconcileAux w nameTpl uriTpl index r items = (Except.error e, evs) →
      (∃ url, e = RcError.network url) ∨ (∃ url, e = RcError.metadataParse url) ∨
        (∃ url x a, e = RcError.nameMismatch url x a) := by
  intro r
  induction r with
  | zero =>
    intro index items e evs h
    simp only [reconcileAux, Prod.mk.injEq] at h
    exact absurd h.1 (by simp)
  | succ r ih =>
    intro index items e evs h
    rw [reconcileAux] at h
    rcases hs : reconcileStep w nameTpl uriTpl index items with ⟨res, evs0⟩
    rw [hs] at h
    cases res with
    | error e' =>
      simp only [Prod.mk.injEq] at h
      obtain ⟨h1, _⟩ := h
      injection h1 with h1
      subst h1
      exact reconcileStep_error_shape hs
    | ok items' =>
      simp only [Prod.mk.injEq] at h
      rcases hrest : reconcileAux w nameTpl uriTpl (index + 1) r items' with ⟨res2, evs2⟩
      rw [hrest] at h
      simp only at h
      rw [h.1] at hrest
      exact ih (index + 1) items' e evs2 hrest

/-! ## Process-level computation lemmas. -/

theorem process_load_error {cfg : ConfigData} {w : World} {d : DiskFile} {e : RcError}
    (hl : load_cache d true = Except.error e) :
    process_read_cache cfg w d =
      ⟨Except.error e, d, [Event.cacheLoad true]⟩ := by
  simp only [process_read_cache, hl]

theorem process_no_hidden {cfg : ConfigData} {w : World} {d : DiskFile} {items : Items}
    (hl : load_cache d true = Except.ok items)
    (hh : cfg.hidden_settings = none) :
    process_read_cache cfg w d =
      ⟨Except.error RcError.unsupportedConfig, d, [Event.cacheLoad true]⟩ := by
  simp only [process_read_cache, hl, hh]

theorem process_loop_error {cfg : ConfigData} {w : World} {d : DiskFile} {items : Items}
    {hs : HiddenSettings} {e : RcError} {evs : List Event}
    (hl : load_cache d true = Except.ok items)
    (hh : cfg.hidden_settings = some hs)
    (hr : reconcileAux w hs.name hs.uri 0 cfg.number items = (Except.error e, evs)) :
    process_read_cache cfg w d =
      ⟨Except.error e, d, Event.cacheLoad true :: evs⟩ := by
  rcases hs with ⟨name, uri, hsh⟩
  simp only [process_read_cache, hl, hh, hr]

theorem process_loop_ok_sync {cfg : ConfigData} {w : World} {d : DiskFile} {items : Items}
    {hs : HiddenSettings} {final : Items} {evs : List Event}
    (hl : load_cache d true = Except.ok items)
    (hh : cfg.hidden_settings = some hs)
    (hr : reconcileAux w hs.name hs.uri 0 cfg.number items = (Except.ok final, evs))
    (hsync : w.syncOk = true) :
    process_read_cache cfg w d =
      ⟨Except.ok (), DiskFile.valid (reorder final), Event.cacheLoad true :: evs⟩ := by
  rcases hs with ⟨name, uri, hsh⟩
  simp only [process_read_cache, hl, hh, hr, hsync, if_true]

theorem process_loop_ok_nosync {cfg : ConfigData} {w : World} {d : DiskFile} {items : Items}
    {hs : HiddenSettings} {final : Items} {evs : List Event}
    (hl : load_cache d true = Except.ok items)
    (hh : cfg.hidden_settings = some hs)
    (hr : reconcileAux w hs.name hs.uri 0 cfg.number items = (Except.ok final, evs))
    (hsync : w.syncOk = false) :
    process_read_cache cfg w d =
      ⟨Except.error RcError.ioError, d, Event.cacheLoad true :: evs⟩ := by
  rcases hs with ⟨name, uri, hsh⟩
  simp only [process_read_cache, hl, hh, hr, hsync]
  rw [if_neg (by simp)]

/-- Loading with the create flag never reports `NotFound` and never
reports `IoError`; its only failure is a corrupt file. -/
theorem load_cache_true_shape (d : DiskFile) :
    (∃ items, load_cache d true = Except.ok items) ∨
      load_cache d true = Except.error RcError.corruptFormat := by
  cases d with
  | absent => exact Or.inl ⟨[], rfl⟩
  | corrupt => exact Or.inr rfl
  | valid items => exact Or.inl ⟨items, rfl⟩
/-- Membership is invariant under `reorder` (it is a permutation). -/
theorem mem_reorder {items : Items} {p : String × CacheItem} :
    p ∈ reorder items ↔ p ∈ items := by
  unfold reorder
  simp

/-- Runs that load the same cache contents produce the same result and
the same events, whatever the disk they came from. -/
theorem process_same_load {cfg : ConfigData} {w : World} {d1 d2 : DiskFile} {items : Items}
    (h1 : load_cache d1 true = Except.ok items)
    (h2 : load_cache d2 true = Except.ok items) :
    (process_read_cache cfg w d1).result = (process_read_cache cfg w d2).result ∧
    (process_read_cache cfg w d1).events = (process_read_cache cfg w d2).events := by
  cases hh : cfg.hidden_settings with
  | none =>
    rw [process_no_hidden h1 hh, process_no_hidden h2 hh]
    exact ⟨rfl, rfl⟩
  | some hs =>
    rcases hr : reconcileAux w hs.name hs.uri 0 cfg.number items with ⟨res, evs⟩
    cases res with
    | error e =>
      rw [process_loop_error h1 hh hr, process_loop_error h2 hh hr]
      exact ⟨rfl, rfl⟩
    | ok fin =>
      cases hsync : w.syncOk with
      | true =>
        rw [process_loop_ok_sync h1 hh hr hsync, process_loop_ok_sync h2 hh hr hsync]
        exact ⟨rfl, rfl⟩
      | false =>
        rw [process_loop_ok_nosync h1 hh hr hsync, process_loop_ok_nosync h2 hh hr hsync]
        exact ⟨rfl, rfl⟩

/-- Every run starts by loading the cache with the create flag, and no
error a run can report is `NotFound`. -/
theorem process_first_event (cfg : ConfigData) (w : World) (d : DiskFile) :
    (process_read_cache cfg w d).events.head? = some (Event.cacheLoad true) ∧
    (∀ e, (process_read_cache cfg w d).result = Except.error e →
      e ≠ RcError.notFound) := by
  rcases load_cache_true_shape d with ⟨items, hl⟩ | hl
  · cases hh : cfg.hidden_settings with
    | none =>
      rw [process_no_hidden hl hh]
      refine ⟨rfl, fun e he => ?_⟩
      injection he with he
      subst he
      simp
    | some hs =>
      rcases hr : reconcileAux w hs.name hs.uri 0 cfg.number items with ⟨res, evs⟩
      cases res with
      | error e' =>
        rw [process_loop_error hl hh hr]
        refine ⟨rfl, fun e he => ?_⟩
        injection he with he
        subst he
        rcases reconcileAux_error_shape cfg.number 0 items _ evs hr with
          ⟨url, rfl⟩ | ⟨url, rfl⟩ | ⟨url, x, a, rfl⟩ <;> simp
      | ok fin =>
        cases hsync : w.syncOk with
        | true =>
          rw [process_loop_ok_sync hl hh hr hsync]
          exact ⟨rfl, fun e he => absurd he (by simp)⟩
        | false =>
          rw [process_loop_ok_nosync hl hh hr hsync]
          refine ⟨rfl, fun e he => ?_⟩
          injection he with he
          subst he
          simp
  · rw [process_load_error hl]
    refine ⟨rfl, fun e he => ?_⟩
    injection he with he
    subst he
    simp

/-! ## Concrete inputs used by the counterexamples and witnesses. -/

/-- A sample cache entry. -/
def sampleItem : CacheItem :=
  { name := "x", image_hash := "", image_link := "", metadata_hash := "",
    metadata_link := "", on_chain := false, animation_hash := none,
    animation_link := none }

/-- A world whose every request fails at transport level. -/
def deadWorld : World :=
  { send := fun _ => Except.error ()
    sendStream := fun _ => Except.error ()
    parseMetadata := fun _ => none
    syncOk := true }

/-- A world serving metadata text `"m0"` at URL `"u"` (parsing to name
`"n"` and image `"img"`) and a two-byte image stream at `"img"`. -/
def happyWorld : World :=
  { send := fun url =>
      if url = "u" then Except.ok ⟨200, Except.ok "m0"⟩ else Except.error ()
    sendStream := fun url =>
      if url = "img" then Except.ok ⟨200, [Except.ok [1, 2]]⟩ else Except.error ()
    parseMetadata := fun t => if t = "m0" then some ⟨"n", "img"⟩ else none
    syncOk := true }

/-- A world answering every request with a 404 response that still
carries a readable body. -/
def status404World : World :=
  { send := fun _ => Except.ok ⟨404, Except.ok "nf"⟩
    sendStream := fun _ => Except.ok ⟨404, [Except.ok [5]]⟩
    parseMetadata := fun _ => none
    syncOk := true }

/-- A world whose metadata parses but carries the wrong name. -/
def mismatchWorld : World :=
  { send := fun _ => Except.ok ⟨200, Except.ok "m0"⟩
    sendStream := fun _ => Except.error ()
    parseMetadata := fun t => if t = "m0" then some ⟨"bad", "img"⟩ else none
    syncOk := true }

/-- A hidden-settings configuration of size 1. -/
def happyConfig : ConfigData := { number := 1, hidden_settings := some ⟨"n", "u", "h"⟩ }

/-- A configuration without hidden settings. -/
def noHiddenConfig : ConfigData := { number := 3, hidden_settings := none }

/-! ## The claims. -/

/-- C1 (counterexample): for a configuration without hidden settings the
run does fail with `UnsupportedConfiguration` and issues no network
request, but the cache load (with creation) HAS already happened — the
`cacheLoad` event is observed — contradicting "no cache load or creation
occurs"; moreover on a corrupt cache file the run fails with the cache
error instead of `UnsupportedConfiguration`. -/
theorem c1_counterexample :
    (process_read_cache noHiddenConfig deadWorld (DiskFile.valid [])).result
        = Except.error RcError.unsupportedConfig ∧
    (process_read_cache noHiddenConfig deadWorld (DiskFile.valid [])).events
        = [Event.cacheLoad true] ∧
    (process_read_cache noHiddenConfig deadWorld DiskFile.corrupt).result
        = Except.error RcError.corruptFormat := by
  decide

/-- C1 (amended): for every configuration that does not declare hidden
settings, whenever the cache file loads (it is loaded — and created if
missing — BEFORE the mode check), `process_read_cache` fails with
`UnsupportedConfiguration`, leaves the disk untouched, and attempts no
network call: the only observable event is the cache load. -/
theorem c1_unsupported_config (cfg : ConfigData) (w : World) (d : DiskFile)
    (items : Items) (hh : cfg.hidden_settings = none)
    (hl : load_cache d true = Except.ok items) :
    process_read_cache cfg w d =
      ⟨Except.error RcError.unsupportedConfig, d, [Event.cacheLoad true]⟩ :=
  process_no_hidden hl hh

/-- C1 witness. -/
theorem c1_witness :
    noHiddenConfig.hidden_settings = none ∧
    load_cache (DiskFile.valid []) true = Except.ok [] ∧
    process_read_cache noHiddenConfig deadWorld (DiskFile.valid []) =
      ⟨Except.error RcError.unsupportedConfig, DiskFile.valid [],
        [Event.cacheLoad true]⟩ :=
  ⟨rfl, rfl, c1_unsupported_config noHiddenConfig deadWorld (DiskFile.valid []) [] rfl rfl⟩

/-- C2 (counterexample): on a 404 response the text fetch returns the
body successfully and the stream fetch hashes the body successfully — the
code never inspects the status, so no `FetchError{status, url}` failure
happens on a non-success status. -/
theorem c2_counterexample :
    get_text status404World "u" = Except.ok "nf" ∧
    encode_url status404World "u" = Except.ok (hexEncode (SHA256.hash [5])) := by
  decide

/-- C2 (amended): `get_text` and `encode_url` fail — with the transport
(`NetworkError`) error carrying the URL — exactly when the request, the
body read, or a stream chunk fails at transport level; the HTTP status is
never inspected, and the body of any delivered response is returned
(resp. hashed) successfully whatever its status. -/
theorem c2_fetch_behavior (w : World) (url : String) (r : TextResponse)
    (t : String) (sr : StreamResponse) (bytes : List Nat) :
    (w.send url = Except.error () →
      get_text w url = Except.error (RcError.network url)) ∧
    (w.send url = Except.ok r → r.text = Except.error () →
      get_text w url = Except.error (RcError.network url)) ∧
    (w.send url = Except.ok r → r.text = Except.ok t →
      get_text w url = Except.ok t) ∧
    (w.sendStream url = Except.error () →
      encode_url w url = Except.error (RcError.network url)) ∧
    (w.sendStream url = Except.ok sr → hashChunks sr.chunks [] = Except.error () →
      encode_url w url = Except.error (RcError.network url)) ∧
    (w.sendStream url = Except.ok sr → hashChunks sr.chunks [] = Except.ok bytes →
      encode_url w url = Except.ok (hexEncode (SHA256.hash bytes))) := by
  refine ⟨?_, ?_, ?_, ?_, ?_, ?_⟩
  · intro h1
    simp only [get_text, h1]
  · intro h1 h2
    simp only [get_text, h1, h2]
  · intro h1 h2
    simp only [get_text, h1, h2]
  · intro h1
    simp only [encode_url, h1]
  · intro h1 h2
    simp only [encode_url, h1, h2]
  · intro h1 h2
    simp only [encode_url, h1, h2]

/-- C2 witness. -/
theorem c2_witness :
    get_text status404World "u2" = Except.ok "nf" ∧
    get_text deadWorld "u" = Except.error (RcError.network "u") :=
  ⟨(c2_fetch_behavior status404World "u2" ⟨404, Except.ok "nf"⟩ "nf"
      ⟨404, [Except.ok [5]]⟩ [5]).2.2.1 rfl rfl,
   (c2_fetch_behavior deadWorld "u" ⟨0, Except.error ()⟩ ""
      ⟨0, []⟩ []).1 rfl⟩

/-- C3: the run is all-or-nothing on disk — whenever it reports any
error (a failing fetch, parse, name check or stream at any index, an
unsupported configuration, a corrupt cache file, or the final sync
failing) the on-disk cache file is exactly what it was before the run;
and when it succeeds, the disk holds precisely the reordered reconciled
mapping, written once after all iterations. -/
theorem c3_atomicity (cfg : ConfigData) (w : World) (d : DiskFile) :
    (∀ e, (process_read_cache cfg w d).result = Except.error e →
      (process_read_cache cfg w d).disk = d) ∧
    ((process_read_cache cfg w d).result = Except.ok () →
      ∃ hs items0 final evs, cfg.hidden_settings = some hs ∧
        load_cache d true = Except.ok items0 ∧
        reconcileAux w hs.name hs.uri 0 cfg.number items0 = (Except.ok final, evs) ∧
        (process_read_cache cfg w d).disk = DiskFile.valid (reorder final)) := by
  rcases load_cache_true_shape d with ⟨items, hl⟩ | hl
  · cases hh : cfg.hidden_settings with
    | none =>
      rw [process_no_hidden hl hh]
      exact ⟨fun e _ => rfl, fun hok => absurd hok (by simp)⟩
    | some hs =>
      rcases hr : reconcileAux w hs.name hs.uri 0 cfg.number items with ⟨res, evs⟩
      cases res with
      | error e =>
        rw [process_loop_error hl hh hr]
        exact ⟨fun e' _ => rfl, fun hok => absurd hok (by simp)⟩
      | ok final =>
        cases hsync : w.syncOk with
        | false =>
          rw [process_loop_ok_nosync hl hh hr hsync]
          exact ⟨fun e' _ => rfl, fun hok => absurd hok (by simp)⟩
        | true =>
          rw [process_loop_ok_sync hl hh hr hsync]
          exact ⟨fun e' he' => absurd he' (by simp),
            fun _ => ⟨hs, items, final, evs, rfl, hl, hr, rfl⟩⟩
  · rw [process_load_error hl]
    exact ⟨fun e _ => rfl, fun hok => absurd hok (by simp)⟩

/-- C3 witness. -/
theorem c3_witness :
    (process_read_cache noHiddenConfig deadWorld
        (DiskFile.valid [("7", sampleItem)])).disk
      = DiskFile.valid [("7", sampleItem)] :=
  (c3_atomicity noHiddenConfig deadWorld (DiskFile.valid [("7", sampleItem)])).1
    RcError.unsupportedConfig (by decide)

/-- C4: after a fully successful run with hidden settings of declared
size `N`, the persisted cache holds, at each key `"0"`..`"N-1"`, an entry
with `on_chain = false`, `animation_link = none`, `animation_hash = none`,
the expanded name template as its name, the expanded URI template as its
metadata link, and 64-lowercase-hex metadata and image hashes; every
pre-existing entry whose key is none of those produced decimal keys —
in particular every non-numeric key — is preserved unchanged (reordered,
never overwritten), and no key beyond the produced ones and the
pre-existing ones is created. -/
theorem c4_reconciliation (cfg : ConfigData) (w : World) (d : DiskFile)
    (hs : HiddenSettings) (items0 : Items)
    (hh : cfg.hidden_settings = some hs)
    (hl : load_cache d true = Except.ok items0)
    (hok : (process_read_cache cfg w d).result = Except.ok ()) :
    ∃ final, (process_read_cache cfg w d).disk = DiskFile.valid final ∧
      (∀ j, j < cfg.number →
        ∃ e, (toString j, e) ∈ final ∧ goodItem hs.name hs.uri j e) ∧
      (∀ p : String × CacheItem, p ∈ items0 →
        (∀ j, j < cfg.number → p.1 ≠ toString j) → p ∈ final) ∧
      (∀ p : String × CacheItem, p ∈ final →
        p ∈ items0 ∨ ∃ j, j < cfg.number ∧ p.1 = toString j) := by
  rcases hr : reconcileAux w hs.name hs.uri 0 cfg.number items0 with ⟨res, evs⟩
  cases res with
  | error e =>
    rw [process_loop_error hl hh hr] at hok
    exact absurd hok (by simp)
  | ok loopFinal =>
    cases hsync : w.syncOk with
    | false =>
      rw [process_loop_ok_nosync hl hh hr hsync] at hok
      exact absurd hok (by simp)
    | true =>
      obtain ⟨h1, h2, h3⟩ := reconcileAux_ok cfg.number 0 items0 loopFinal evs hr
      refine ⟨reorder loopFinal, by rw [process_loop_ok_sync hl hh hr hsync], ?_, ?_, ?_⟩
      · intro j hj
        obtain ⟨e, he, hge⟩ := h1 j (Nat.zero_le j) (by omega)
        exact ⟨e, mem_reorder.mpr he, hge⟩
      · intro p hp hkeys
        rcases h2 p hp with ⟨j, hj0, hjN, hkey⟩ | hmem
        · exact absurd hkey (hkeys j (by omega))
        · exact mem_reorder.mpr hmem
      · intro p hp
        rcases h3 p (mem_reorder.mp hp) with hmem | ⟨j, _, hjN, hkey, _⟩
        · exact Or.inl hmem
        · exact Or.inr ⟨j, by omega, hkey⟩

/-- C4 witness. -/
theorem c4_witness :
    happyConfig.hidden_settings = some ⟨"n", "u", "h"⟩ ∧
    load_cache (DiskFile.valid [("alpha", sampleItem)]) true
      = Except.ok [("alpha", sampleItem)] ∧
    (process_read_cache happyConfig happyWorld
        (DiskFile.valid [("alpha", sampleItem)])).result = Except.ok () ∧
    (∃ final,
      (process_read_cache happyConfig happyWorld
          (DiskFile.valid [("alpha", sampleItem)])).disk = DiskFile.valid final ∧
      (∀ j, j < happyConfig.number →
        ∃ e, (toString j, e) ∈ final ∧ goodItem "n" "u" j e) ∧
      (∀ p : String × CacheItem, p ∈ [("alpha", sampleItem)] →
        (∀ j, j < happyConfig.number → p.1 ≠ toString j) → p ∈ final) ∧
      (∀ p : String × CacheItem, p ∈ final →
        p ∈ [("alpha", sampleItem)] ∨ ∃ j, j < happyConfig.number ∧ p.1 = toString j)) :=
  ⟨rfl, rfl, by decide,
   c4_reconciliation happyConfig happyWorld (DiskFile.valid [("alpha", sampleItem)])
     ⟨"n", "u", "h"⟩ [("alpha", sampleItem)] rfl rfl (by decide)⟩

/-- C5: the comparator parses keys as `i32` — two numeric keys compare
numerically, two non-numeric keys compare as strings, and a numeric key
sorts after a non-numeric one — so reordering the keys "10", "2",
"alpha", "1" yields exactly ["alpha", "1", "2", "10"]. -/
theorem c5_reorder_example :
    (reorder [("10", sampleItem), ("2", sampleItem), ("alpha", sampleItem),
        ("1", sampleItem)]).map Prod.fst = ["alpha", "1", "2", "10"] ∧
    keyCmp "2" "10" = Ordering.lt ∧
    keyCmp "alpha" "beta" = Ordering.lt ∧
    keyCmp "5" "alpha" = Ordering.gt ∧
    keyCmp "alpha" "5" = Ordering.lt := by
  decide

/-- C6 (counterexample): the comparator equates the distinct keys "01"
and "1" — both parse to the number 1 — so it is false that no two
distinct keys compare as equal unless identical. -/
theorem c6_counterexample :
    keyCmp "01" "1" = Ordering.eq ∧ "01" ≠ "1" := by
  decide

/-- C6 (amended): `reorder` is idempotent, and its comparator is a strict
weak ordering — every key compares equal to itself, comparison is
antisymmetric under `Ordering.swap`, the strict part is transitive and
the induced equivalence is transitive — but distinct keys parsing to the
same `i32` value (such as "01" and "1") do compare as equal. -/
theorem c6_reorder_idempotent (l : Items) (a b c : String) :
    reorder (reorder l) = reorder l ∧
    keyCmp a a = Ordering.eq ∧
    keyCmp b a = (keyCmp a b).swap ∧
    (keyCmp a b = Ordering.lt → keyCmp b c = Ordering.lt →
      keyCmp a c = Ordering.lt) ∧
    (keyCmp a b = Ordering.eq → keyCmp b c = Ordering.eq →
      keyCmp a c = Ordering.eq) :=
  ⟨reorder_reorder l, keyCmp_refl a, keyCmp_swap a b,
   fun h1 h2 => keyCmp_lt_trans h1 h2, fun h1 h2 => keyCmp_eq_trans h1 h2⟩

/-- C6 witness. -/
theorem c6_witness :
    reorder (reorder [("b", sampleItem), ("a", sampleItem)]) =
      reorder [("b", sampleItem), ("a", sampleItem)] ∧
    keyCmp "1" "3" = Ordering.lt :=
  ⟨(c6_reorder_idempotent [("b", sampleItem), ("a", sampleItem)] "x" "y" "z").1,
   (c6_reorder_idempotent [] "1" "2" "3").2.2.2.1 (by decide) (by decide)⟩

/-- C7: whenever the loop reaches an index whose fetched metadata parses
with a name differing (byte-for-byte) from the expanded name template,
the whole remaining run stops immediately with `NameMismatch` carrying
the expected and the actual name: no entry is inserted for that index,
the image is not fetched, and no further index is processed — the only
event is the one metadata GET. -/
theorem c7_name_mismatch (w : World) (nameTpl uriTpl : String) (index r : Nat)
    (items : Items) (txt : String) (md : Metadata)
    (hg : get_text w (replace_patterns uriTpl index) = Except.ok txt)
    (hp : w.parseMetadata txt = some md)
    (hne : md.name ≠ replace_patterns nameTpl index) :
    reconcileAux w nameTpl uriTpl index (r + 1) items =
      (Except.error (RcError.nameMismatch (replace_patterns uriTpl index)
        (replace_patterns nameTpl index) md.name),
       [Event.httpGet (replace_patterns uriTpl index)]) :=
  reconcileAux_step_error (reconcileStep_mismatch hg hp hne)

/-- C7 witness. -/
theorem c7_witness :
    get_text mismatchWorld (replace_patterns "u" 0) = Except.ok "m0" ∧
    mismatchWorld.parseMetadata "m0" = some ⟨"bad", "img"⟩ ∧
    ("bad" : String) ≠ "n" ∧
    reconcileAux mismatchWorld "n" "u" 0 3 [("k", sampleItem)] =
      (Except.error (RcError.nameMismatch "u" "n" "bad"), [Event.httpGet "u"]) :=
  ⟨by decide, rfl, by decide,
   c7_name_mismatch mismatchWorld "n" "u" 0 2 [("k", sampleItem)] "m0"
     ⟨"bad", "img"⟩ (by decide) rfl (by decide)⟩

/-- C8: `hash_text` (`encode_text`) is a pure deterministic function —
equal inputs give equal digests — every digest is 64 lowercase hex
characters, and the digest of the empty string is the well-known SHA-256
digest of the empty input. -/
theorem c8_hash_text :
    (∀ s t : String, s = t → encode_text s = encode_text t) ∧
    (∀ s : String, isHex64 (encode_text s) = true) ∧
    encode_text "" =
      "e3b0c44298fc1c149afbf4c8996fb92427ae41e4649b934ca495991b7852b855" :=
  ⟨fun s t h => by rw [h], isHex64_encode_text, by decide⟩

/-- C8 witness. -/
theorem c8_witness :
    encode_text "abc" = encode_text "abc" ∧
    isHex64 (encode_text "abc") = true :=
  ⟨c8_hash_text.1 "abc" "abc" rfl, c8_hash_text.2.1 "abc"⟩

/-- C9: `HiddenSettings::to_candy_format` never fails or panics — it is a
total function — and for every hash string whose UTF-8 byte length is not
exactly 32 it silently substitutes the all-zero 32-byte hash, passing
name and uri through unchanged. -/
theorem c9_to_candy_format (hs : HiddenSettings)
    (h : (strBytes hs.hash).length ≠ 32) :
    hs.to_candy_format =
      { name := hs.name, uri := hs.uri, hash := List.replicate 32 0 } := by
  simp only [HiddenSettings.to_candy_format]
  rw [if_neg h]

/-- C9 witness. -/
theorem c9_witness :
    (strBytes (HiddenSettings.mk "n" "u" "").hash).length ≠ 32 ∧
    (HiddenSettings.mk "n" "u" "").to_candy_format =
      { name := "n", uri := "u", hash := List.replicate 32 0 } :=
  ⟨by decide, c9_to_candy_format ⟨"n", "u", ""⟩ (by decide)⟩

/-- C10: `process_read_cache` always invokes the cache load with the
create-if-missing flag set to true — the first observable event of every
run is `cacheLoad true` — so no run ever fails with `NotFound`, and a run
on an absent cache file has exactly the result and events of a run on an
empty cache: an empty cache is created and the run proceeds. -/
theorem c10_load_creates (cfg : ConfigData) (w : World) (d : DiskFile) :
    (process_read_cache cfg w d).events.head? = some (Event.cacheLoad true) ∧
    (∀ e, (process_read_cache cfg w d).result = Except.error e →
      e ≠ RcError.notFound) ∧
    (process_read_cache cfg w DiskFile.absent).result =
      (process_read_cache cfg w (DiskFile.valid [])).result ∧
    (process_read_cache cfg w DiskFile.absent).events =
      (process_read_cache cfg w (DiskFile.valid [])).events := by
  obtain ⟨hhead, hnf⟩ := process_first_event cfg w d
  obtain ⟨hres, hevs⟩ :=
    @process_same_load cfg w DiskFile.absent (DiskFile.valid []) [] rfl rfl
  exact ⟨hhead, hnf, hres, hevs⟩

/-- C10 witness. -/
theorem c10_witness :
    (process_read_cache happyConfig deadWorld DiskFile.absent).events.head?
        = some (Event.cacheLoad true) ∧
    RcError.network "u" ≠ RcError.notFound :=
  ⟨(c10_load_creates happyConfig deadWorld DiskFile.absent).1,
   (c10_load_creates happyConfig deadWorld DiskFile.absent).2.1
     (RcError.network "u") (by decide)⟩

end Sugar
